import Mathlib

/-!
Verification development for the attendance application in `compactlist.py`.

The embedding models:
* roll-number extraction from free text (the digit-run scan performed by
  the regular expression search for runs of decimal digits, followed by
  integer parsing and set formation);
* the attendance reconciliation in the `attendance_maker` branch
  (`total_rolls`, `out_of_range_rolls`, `present_rolls` / `absent_rolls`,
  `get_status`, and the status column added to the data frame);
* the column-width computations of `create_signature_pdf` and
  `create_attendance_pdf` (glyph-width measurement is abstracted as a
  function from strings to rational widths; the width of an A4 page in
  the PDF unit is 210);
* the summary counts of `create_attendance_pdf`;
* the view dispatch of the Streamlit app: the empty-roster guard, the
  empty-input guard, and the try/except wrapper around PDF generation
  (an exception is modelled as the `none` branch of the generators,
  whose only failure source in this model is the maximum taken over an
  empty sequence of name widths).
-/

namespace CompactList

/-- A row of the `students` table: roll number, name, group. -/
structure Student where
  roll_no : Nat
  name : String
  group_name : String
deriving DecidableEq, Repr

/-- The attendance input mode selected by the radio button:
either the entered roll numbers are the absentees, or they are the
present students. -/
inductive InputMethod where
  | enterAbsentees
  | enterPresent
deriving DecidableEq, Repr

/-- Fuel-indexed scan extracting every maximal run of decimal digits from
a character list, as the regular-expression search for digit runs does.
The fuel only serves to make the recursion structural; it is always
instantiated with the length of the list, which is enough. -/
def findall_digits_fuel : Nat → List Char → List (List Char)
  | 0, _ => []
  | _ + 1, [] => []
  | fuel + 1, c :: cs =>
    if c.isDigit then
      (c :: cs.takeWhile Char.isDigit) :: findall_digits_fuel fuel (cs.dropWhile Char.isDigit)
    else
      findall_digits_fuel fuel cs

/-- `number_list raw` is the list of maximal decimal-digit runs of `raw`,
in order of occurrence: the model of `re.findall` applied to the digit-run
pattern in `attendance_maker`. -/
def number_list (raw : List Char) : List (List Char) :=
  findall_digits_fuel raw.length raw

/-- Decimal parsing of a digit run, the model of `int` applied to a
digit-only string. -/
def int_of_digits (run : List Char) : Nat :=
  run.foldl (fun a c => 10 * a + (c.toNat - 48)) 0

/-- `input_rolls` is the set of integers parsed from the digit runs of the
raw input: the set comprehension over `number_list` in the source. -/
def input_rolls (raw : List Char) : Finset Nat :=
  ((number_list raw).map int_of_digits).toFinset

/-- `total_rolls` is the set of roll numbers of the loaded roster. -/
def total_rolls (roster : List Student) : Finset Nat :=
  (roster.map Student.roll_no).toFinset

/-- Parsed roll numbers that do not belong to the roster; they are only
reported in a warning. -/
def out_of_range_rolls (roster : List Student) (raw : List Char) : Finset Nat :=
  input_rolls raw \ total_rolls roster

/-- The out-of-range roll numbers as shown to the user: sorted ascending. -/
def unknown_sorted (roster : List Student) (raw : List Char) : List Nat :=
  (out_of_range_rolls roster raw).sort (· ≤ ·)

/-- The set of roll numbers marked absent, per input mode. -/
def absent_rolls (roster : List Student) (raw : List Char) : InputMethod → Finset Nat
  | InputMethod.enterAbsentees => input_rolls raw ∩ total_rolls roster
  | InputMethod.enterPresent =>
      total_rolls roster \ (input_rolls raw ∩ total_rolls roster)

/-- The set of roll numbers marked present, per input mode. -/
def present_rolls (roster : List Student) (raw : List Char) : InputMethod → Finset Nat
  | InputMethod.enterAbsentees =>
      total_rolls roster \ (input_rolls raw ∩ total_rolls roster)
  | InputMethod.enterPresent => input_rolls raw ∩ total_rolls roster

/-- The status string written into the attendance data frame for present
students. -/
def statusPresent : String := "Present"

/-- The status string written into the attendance data frame for absent
students. -/
def statusAbsent : String := "Absent"

/-- The header text measured when sizing the name column. -/
def nameHeaderText : String := "Name"

/-- `get_status` from the source: a roll number is reported present
exactly when it lies in the present set. -/
def get_status (roster : List Student) (raw : List Char) (mode : InputMethod)
    (roll : Nat) : String :=
  if roll ∈ present_rolls roster raw mode then statusPresent else statusAbsent

/-- The attendance data frame: the roster with a status column computed by
applying `get_status` to each roll number. -/
def attendance_df (roster : List Student) (raw : List Char) (mode : InputMethod) :
    List (Student × String) :=
  roster.map (fun st => (st, get_status roster raw mode st.roll_no))

/-- Number of rows whose status equals the present string (the
value-counts lookup in the summary block). -/
def present_count (df : List (Student × String)) : Nat :=
  df.countP (fun r => r.2 == statusPresent)

/-- Number of rows whose status equals the absent string. -/
def absent_count (df : List (Student × String)) : Nat :=
  df.countP (fun r => r.2 == statusAbsent)

/-- Column widths computed by `create_signature_pdf`. -/
structure SigColWidths where
  roll_no : ℚ
  name : ℚ
  group_name : ℚ
  signature : ℚ
deriving DecidableEq, Repr

/-- Column widths computed by `create_attendance_pdf`. -/
structure AttColWidths where
  roll_no : ℚ
  name : ℚ
  group_name : ℚ
  status : ℚ
  signature : ℚ
deriving DecidableEq, Repr

/-- Maximum of a list of rationals; `none` on the empty list, mirroring
the exception raised by a maximum taken over an empty sequence. -/
def listMax : List ℚ → Option ℚ
  | [] => none
  | x :: xs => some (xs.foldl max x)

/-- Width of an A4 page in the unit used by the PDF library. -/
def pdf_w : ℚ := 210

/-- The column-width computation of `create_signature_pdf`.  `mB` measures
a string in the bold header font, `mR` in the regular font; 6 is the fixed
padding added to measured widths.  Returns `none` when the roster is
empty, where the source raises from the maximum over an empty sequence. -/
def create_signature_pdf (mB mR : String → ℚ) (df : List Student) :
    Option SigColWidths :=
  match listMax (df.map (fun st => mR st.name)) with
  | none => none
  | some m =>
    let name_header_width := mB nameHeaderText + 6
    let max_name_width := m + 6
    let name_col_width := max name_header_width max_name_width
    some { roll_no := 20, name := name_col_width, group_name := 15, signature := 50 }

/-- The layout and summary computation of `create_attendance_pdf`: the
name column is first sized from content, then overwritten so that the
columns fill the usable page width (page width minus 20 of margins); the
summary counts the present and absent rows.  Returns `none` when the data
frame is empty, where the source raises from the maximum over an empty
sequence. -/
def create_attendance_pdf (mB mR : String → ℚ) (df : List (Student × String)) :
    Option (AttColWidths × Nat × Nat) :=
  match listMax (df.map (fun r => mR r.1.name)) with
  | none => none
  | some m =>
    let name_header_width := mB nameHeaderText + 6
    let available_width := pdf_w - 20
    let name_col_width := max name_header_width (m + 6)
    let widths0 : AttColWidths :=
      { roll_no := 15, name := name_col_width, group_name := 15, status := 20,
        signature := 40 }
    let fixed_cols_width :=
      widths0.roll_no + widths0.group_name + widths0.status + widths0.signature
    let widths : AttColWidths := { widths0 with name := available_width - fixed_cols_width }
    some (widths, present_count df, absent_count df)

/-- Outcome of one view interaction: a downloadable document, one of the
two user-facing warnings, or the caught generation error. -/
inductive ViewResult (α : Type) where
  | download : α → ViewResult α
  | warningNoData : ViewResult α
  | warningEmptyInput : ViewResult α
  | errorGenerating : ViewResult α
deriving DecidableEq, Repr

/-- `true` exactly on the download outcome. -/
def producesDownload {α : Type} : ViewResult α → Bool
  | ViewResult.download _ => true
  | _ => false

/-- The Compact List view: warn when no student data was loaded,
otherwise generate the signature sheet inside the try/except wrapper. -/
def compact_list_view (mB mR : String → ℚ) (roster : List Student) :
    ViewResult SigColWidths :=
  if roster.isEmpty then ViewResult.warningNoData
  else
    match create_signature_pdf mB mR roster with
    | some w => ViewResult.download w
    | none => ViewResult.errorGenerating

/-- The Attendance Maker view: warn when no student data was loaded; warn
when the raw input is empty after stripping whitespace; otherwise
reconcile and generate the attendance sheet inside the try/except
wrapper. -/
def attendance_maker_view (mB mR : String → ℚ) (roster : List Student)
    (raw : List Char) (mode : InputMethod) : ViewResult (AttColWidths × Nat × Nat) :=
  if roster.isEmpty then ViewResult.warningNoData
  else if raw.all Char.isWhitespace then ViewResult.warningEmptyInput
  else
    match create_attendance_pdf mB mR (attendance_df roster raw mode) with
    | some out => ViewResult.download out
    | none => ViewResult.errorGenerating

/-- Specification-side characterisation of a maximal decimal-digit run:
`run` occurs in `s` as a non-empty all-digit segment that is bordered on
the left by nothing or a non-digit, and on the right by nothing or a
non-digit. -/
def IsMaxRun (s run : List Char) : Prop :=
  ∃ pre post, s = pre ++ run ++ post ∧ run ≠ [] ∧
    (∀ c ∈ run, c.isDigit = true) ∧
    (∀ c, pre.getLast? = some c → c.isDigit = false) ∧
    (∀ c, post.head? = some c → c.isDigit = false)

/-- The name-column width computed by `create_attendance_pdf`, when the
generator succeeds. -/
def att_name_width (mB mR : String → ℚ) (df : List (Student × String)) : Option ℚ :=
  (create_attendance_pdf mB mR df).map (fun out => out.1.name)

/-- Sum of the fixed (non-name) column widths of the attendance sheet. -/
def other_cols_sum (w : AttColWidths) : ℚ :=
  w.roll_no + w.group_name + w.status + w.signature

/-- The name width the specification prescribes for the attendance sheet:
usable page width minus the sum of the other, fixed, column widths. -/
def expected_att_name_width (mB mR : String → ℚ) (df : List (Student × String)) :
    Option ℚ :=
  (create_attendance_pdf mB mR df).map (fun out => (pdf_w - 20) - other_cols_sum out.1)

/-- The name-column width computed by `create_signature_pdf`, when the
generator succeeds. -/
def sig_name_width (mB mR : String → ℚ) (df : List Student) : Option ℚ :=
  (create_signature_pdf mB mR df).map SigColWidths.name

/-- The maximum measured width over the roster names, in the regular
font. -/
def names_max (mR : String → ℚ) (df : List Student) : Option ℚ :=
  listMax (df.map (fun st => mR st.name))

/-- The name width the specification prescribes for the signature sheet:
the larger of the measured header width and the largest measured name
width, plus the fixed padding. -/
def expected_sig_name_width (mB mR : String → ℚ) (df : List Student) : Option ℚ :=
  (names_max mR df).map (fun m => max (mB nameHeaderText) m + 6)

/-- Sample roster used to witness satisfiability of hypotheses. -/
def sampleRoster : List Student :=
  [⟨1, "A", "G1"⟩, ⟨2, "B", "G1"⟩, ⟨3, "C", "G2"⟩]

/-- Sample raw input naming rolls 1 and 3. -/
def sampleInput : List Char := ['1', ',', ' ', '3']

/-- Sample raw input naming only a roll that is not on the roster. -/
def sampleUnknownInput : List Char := ['5']

/-- Sample bold-font width measure. -/
def mBSample : String → ℚ := fun s => s.length

/-- Sample regular-font width measure. -/
def mRSample : String → ℚ := fun s => s.length

/-- Sample attendance data frame with one row. -/
def sampleDf : List (Student × String) := [(⟨1, "A", "G1"⟩, statusPresent)]

theorem statusPresent_ne : statusPresent ≠ statusAbsent := by decide

theorem statusAbsent_ne : statusAbsent ≠ statusPresent := by decide

theorem beq_present_absent : (statusPresent == statusAbsent) = false := by decide

theorem beq_absent_present : (statusAbsent == statusPresent) = false := by decide

theorem dropWhile_length_le {α : Type} (p : α → Bool) (l : List α) :
    (l.dropWhile p).length ≤ l.length := by
  induction l with
  | nil => exact Nat.le_refl _
  | cons a as ih =>
    rw [List.dropWhile_cons]
    by_cases hp : p a = true
    · rw [if_pos hp]
      exact Nat.le_trans ih (Nat.le_succ _)
    · rw [if_neg hp]

theorem head?_dropWhile_false {α : Type} (p : α → Bool) (l : List α) {c : α}
    (h : (l.dropWhile p).head? = some c) : p c = false := by
  induction l with
  | nil => simp [List.dropWhile] at h
  | cons a as ih =>
    rw [List.dropWhile_cons] at h
    by_cases hp : p a = true
    · rw [if_pos hp] at h
      exact ih h
    · rw [if_neg hp] at h
      have hac : a = c := by
        simpa using h
      subst hac
      simpa using hp

theorem dropWhile_ne_nil_of_mem {α : Type} {p : α → Bool} {l : List α} {x : α}
    (hx : x ∈ l) (hpx : p x = false) : l.dropWhile p ≠ [] := by
  induction l with
  | nil => cases hx
  | cons a as ih =>
    rw [List.dropWhile_cons]
    by_cases hp : p a = true
    · rw [if_pos hp]
      rcases List.mem_cons.mp hx with rfl | hx'
      · rw [hp] at hpx
        cases hpx
      · exact ih hx'
    · rw [if_neg hp]
      exact List.cons_ne_nil _ _

theorem getLast?_dropWhile {α : Type} (p : α → Bool) (l : List α)
    (h : l.dropWhile p ≠ []) : (l.dropWhile p).getLast? = l.getLast? := by
  induction l with
  | nil => simp [List.dropWhile] at h
  | cons a as ih =>
    rw [List.dropWhile_cons] at h ⊢
    by_cases hp : p a = true
    · rw [if_pos hp] at h ⊢
      have has : as ≠ [] := by
        rintro rfl
        simp [List.dropWhile] at h
      rw [ih h]
      obtain ⟨b, bs, rfl⟩ := List.exists_cons_of_ne_nil has
      exact List.getLast?_cons_cons.symm
    · rw [if_neg hp]

theorem takeWhile_append_of_all {α : Type} {p : α → Bool} {l₁ l₂ : List α}
    (h : ∀ x ∈ l₁, p x = true) :
    (l₁ ++ l₂).takeWhile p = l₁ ++ l₂.takeWhile p := by
  induction l₁ with
  | nil => simp
  | cons a as ih =>
    rw [List.cons_append, List.takeWhile_cons, if_pos (h a (List.mem_cons_self a as)),
      ih (fun x hx => h x (List.mem_cons_of_mem a hx)), List.cons_append]

theorem dropWhile_append_of_ne_nil {α : Type} {p : α → Bool} {l₁ l₂ : List α}
    (h : l₁.dropWhile p ≠ []) :
    (l₁ ++ l₂).dropWhile p = l₁.dropWhile p ++ l₂ := by
  induction l₁ with
  | nil => simp [List.dropWhile] at h
  | cons a as ih =>
    by_cases hp : p a = true
    · rw [List.dropWhile_cons, if_pos hp] at h
      rw [List.cons_append, List.dropWhile_cons, if_pos hp, List.dropWhile_cons, if_pos hp]
      exact ih h
    · rw [List.cons_append, List.dropWhile_cons, if_neg hp, List.dropWhile_cons, if_neg hp,
        List.cons_append]

theorem not_isMaxRun_nil (run : List Char) : ¬ IsMaxRun [] run := by
  rintro ⟨pre, post, heq, hne, -, -, -⟩
  have h0 : pre ++ run ++ post = [] := heq.symm
  rcases List.append_eq_nil.mp h0 with ⟨h1, -⟩
  rcases List.append_eq_nil.mp h1 with ⟨-, h2⟩
  exact hne h2

theorem isMaxRun_cons_of_not_digit {c : Char} {cs run : List Char}
    (hc : c.isDigit = false) : IsMaxRun (c :: cs) run ↔ IsMaxRun cs run := by
  constructor
  · rintro ⟨pre, post, heq, hne, hdig, hpre, hpost⟩
    cases pre with
    | nil =>
      obtain ⟨r, rs, rfl⟩ := List.exists_cons_of_ne_nil hne
      rw [List.nil_append, List.cons_append] at heq
      injection heq with h1 h2
      rw [h1, hdig r (List.mem_cons_self r rs)] at hc
      cases hc
    | cons a pre' =>
      rw [List.cons_append, List.cons_append] at heq
      injection heq with h1 h2
      refine ⟨pre', post, h2, hne, hdig, ?_, hpost⟩
      intro x hx
      apply hpre
      cases pre' with
      | nil => simp at hx
      | cons b pre'' =>
        rw [List.getLast?_cons_cons]
        exact hx
  · rintro ⟨pre, post, heq, hne, hdig, hpre, hpost⟩
    refine ⟨c :: pre, post, ?_, hne, hdig, ?_, hpost⟩
    · rw [List.cons_append, List.cons_append, ← heq]
    · intro x hx
      cases pre with
      | nil =>
        have hcx : c = x := by simpa using hx
        rw [← hcx]
        exact hc
      | cons b pre'' =>
        rw [List.getLast?_cons_cons] at hx
        exact hpre x hx

theorem isMaxRun_cons_of_digit {c : Char} {cs run : List Char}
    (hc : c.isDigit = true) :
    IsMaxRun (c :: cs) run ↔
      (run = c :: cs.takeWhile Char.isDigit ∨ IsMaxRun (cs.dropWhile Char.isDigit) run) := by
  constructor
  · rintro ⟨pre, post, heq, hne, hdig, hpre, hpost⟩
    cases pre with
    | nil =>
      left
      obtain ⟨r, rs, rfl⟩ := List.exists_cons_of_ne_nil hne
      rw [List.nil_append, List.cons_append] at heq
      injection heq with h1 h2
      subst h1
      have hrs : ∀ x ∈ rs, Char.isDigit x = true :=
        fun x hx => hdig x (List.mem_cons_of_mem c hx)
      have hpostTW : post.takeWhile Char.isDigit = [] := by
        cases post with
        | nil => rfl
        | cons q qs =>
          rw [List.takeWhile_cons, if_neg]
          rw [hpost q rfl]
          exact Bool.false_ne_true
      rw [h2, takeWhile_append_of_all hrs, hpostTW, List.append_nil]
    | cons a pre' =>
      right
      rw [List.cons_append, List.cons_append] at heq
      injection heq with h1 h2
      subst h1
      have hpre' : pre' ≠ [] := by
        rintro rfl
        have hl : Char.isDigit c = false := hpre c (by simp)
        rw [hc] at hl
        cases hl
      obtain ⟨b, pre'', rfl⟩ := List.exists_cons_of_ne_nil hpre'
      have hlast : (b :: pre'').getLast? = some ((b :: pre'').getLast hpre') :=
        List.getLast?_eq_getLast _ hpre'
      have hnd : Char.isDigit ((b :: pre'').getLast hpre') = false := by
        apply hpre
        rw [List.getLast?_cons_cons]
        exact hlast
      have hdw : (b :: pre'').dropWhile Char.isDigit ≠ [] :=
        dropWhile_ne_nil_of_mem (List.getLast_mem hpre') hnd
      refine ⟨(b :: pre'').dropWhile Char.isDigit, post, ?_, hne, hdig, ?_, hpost⟩
      · rw [h2, List.append_assoc, dropWhile_append_of_ne_nil hdw, List.append_assoc]
      · intro x hx
        rw [getLast?_dropWhile _ _ hdw, hlast] at hx
        injection hx with hx
        rw [← hx]
        exact hnd
  · rintro (rfl | ⟨pre, post, heq, hne, hdig, hpre, hpost⟩)
    · refine ⟨[], cs.dropWhile Char.isDigit, ?_, List.cons_ne_nil _ _, ?_, ?_, ?_⟩
      · rw [List.nil_append, List.cons_append, List.takeWhile_append_dropWhile]
      · intro x hx
        rcases List.mem_cons.mp hx with rfl | hx'
        · exact hc
        · exact List.mem_takeWhile_imp hx'
      · intro x hx
        simp at hx
      · intro x hx
        exact head?_dropWhile_false _ _ hx
    · have hpre0 : pre ≠ [] := by
        rintro rfl
        rw [List.nil_append] at heq
        obtain ⟨r, rs, rfl⟩ := List.exists_cons_of_ne_nil hne
        have hh : (cs.dropWhile Char.isDigit).head? = some r := by
          rw [heq, List.cons_append, List.head?_cons]
        have hr := head?_dropWhile_false _ _ hh
        rw [hdig r (List.mem_cons_self r rs)] at hr
        cases hr
      have hcs : cs = cs.takeWhile Char.isDigit ++ (pre ++ run ++ post) := by
        rw [← heq, List.takeWhile_append_dropWhile]
      refine ⟨c :: (cs.takeWhile Char.isDigit ++ pre), post, ?_, hne, hdig, ?_, hpost⟩
      · rw [List.cons_append, List.cons_append]
        nth_rewrite 1 [hcs]
        simp [List.append_assoc]
      · intro x hx
        have htp : cs.takeWhile Char.isDigit ++ pre ≠ [] := by
          intro h0
          rcases List.append_eq_nil.mp h0 with ⟨-, h2⟩
          exact hpre0 h2
        obtain ⟨b, bs, hbs⟩ := List.exists_cons_of_ne_nil htp
        rw [hbs, List.getLast?_cons_cons, ← hbs,
          List.getLast?_append_of_ne_nil _ hpre0] at hx
        exact hpre x hx

theorem mem_findall_digits_fuel (fuel : Nat) :
    ∀ (s run : List Char), s.length ≤ fuel →
      (run ∈ findall_digits_fuel fuel s ↔ IsMaxRun s run) := by
  induction fuel with
  | zero =>
    intro s run h
    have hs : s = [] := List.length_eq_zero.mp (Nat.le_zero.mp h)
    subst hs
    simp [findall_digits_fuel, not_isMaxRun_nil]
  | succ n ih =>
    intro s run h
    cases s with
    | nil => simp [findall_digits_fuel, not_isMaxRun_nil]
    | cons c cs =>
      have hcs : cs.length ≤ n := Nat.succ_le_succ_iff.mp h
      by_cases hc : c.isDigit = true
      · rw [show findall_digits_fuel (n + 1) (c :: cs) =
            (c :: cs.takeWhile Char.isDigit) ::
              findall_digits_fuel n (cs.dropWhile Char.isDigit) by
          rw [findall_digits_fuel, if_pos hc]]
        rw [List.mem_cons,
          ih (cs.dropWhile Char.isDigit) run
            (Nat.le_trans (dropWhile_length_le _ _) hcs)]
        exact (isMaxRun_cons_of_digit hc).symm
      · have hc' : c.isDigit = false := by
          simpa using hc
        rw [show findall_digits_fuel (n + 1) (c :: cs) = findall_digits_fuel n cs by
          rw [findall_digits_fuel, if_neg hc]]
        rw [ih cs run hcs]
        exact (isMaxRun_cons_of_not_digit hc').symm

theorem mem_number_list (raw run : List Char) :
    run ∈ number_list raw ↔ IsMaxRun raw run :=
  mem_findall_digits_fuel raw.length raw run (Nat.le_refl _)

theorem present_rolls_subset (roster : List Student) (raw : List Char)
    (mode : InputMethod) : present_rolls roster raw mode ⊆ total_rolls roster := by
  cases mode with
  | enterAbsentees =>
    simp only [present_rolls]
    exact Finset.sdiff_subset
  | enterPresent =>
    simp only [present_rolls]
    exact Finset.inter_subset_right

theorem absent_rolls_subset (roster : List Student) (raw : List Char)
    (mode : InputMethod) : absent_rolls roster raw mode ⊆ total_rolls roster := by
  cases mode with
  | enterAbsentees =>
    simp only [absent_rolls]
    exact Finset.inter_subset_right
  | enterPresent =>
    simp only [absent_rolls]
    exact Finset.sdiff_subset

theorem present_union_absent (roster : List Student) (raw : List Char)
    (mode : InputMethod) :
    present_rolls roster raw mode ∪ absent_rolls roster raw mode =
      total_rolls roster := by
  cases mode with
  | enterAbsentees =>
    simp only [present_rolls, absent_rolls]
    exact Finset.sdiff_union_of_subset Finset.inter_subset_right
  | enterPresent =>
    simp only [present_rolls, absent_rolls]
    rw [Finset.union_comm]
    exact Finset.sdiff_union_of_subset Finset.inter_subset_right

theorem present_inter_absent (roster : List Student) (raw : List Char)
    (mode : InputMethod) :
    present_rolls roster raw mode ∩ absent_rolls roster raw mode = ∅ := by
  cases mode with
  | enterAbsentees =>
    simp only [present_rolls, absent_rolls]
    exact Finset.sdiff_inter_self _ _
  | enterPresent =>
    simp only [present_rolls, absent_rolls]
    rw [Finset.inter_comm]
    exact Finset.sdiff_inter_self _ _

theorem roll_mem_total {roster : List Student} {st : Student} (h : st ∈ roster) :
    st.roll_no ∈ total_rolls roster := by
  simp only [total_rolls, List.mem_toFinset, List.mem_map]
  exact ⟨st, h, rfl⟩

theorem create_signature_pdf_isSome (mB mR : String → ℚ) (df : List Student)
    (h : df ≠ []) : (create_signature_pdf mB mR df).isSome = true := by
  obtain ⟨r, rs, rfl⟩ := List.exists_cons_of_ne_nil h
  simp [create_signature_pdf, listMax]

theorem create_attendance_pdf_isSome (mB mR : String → ℚ)
    (df : List (Student × String)) (h : df ≠ []) :
    (create_attendance_pdf mB mR df).isSome = true := by
  obtain ⟨r, rs, rfl⟩ := List.exists_cons_of_ne_nil h
  simp [create_attendance_pdf, listMax]

theorem countP_statuses (L : List (Student × String))
    (h : ∀ p ∈ L, p.2 = statusPresent ∨ p.2 = statusAbsent) :
    L.countP (fun r => r.2 == statusPresent) +
      L.countP (fun r => r.2 == statusAbsent) = L.length := by
  induction L with
  | nil => rfl
  | cons a L ih =>
    rw [List.countP_cons, List.countP_cons, List.length_cons]
    have hih := ih (fun p hp => h p (List.mem_cons_of_mem a hp))
    rcases h a (List.mem_cons_self a L) with h1 | h1 <;>
      simp [h1, beq_present_absent, beq_absent_present] <;> omega

theorem foldl_max_le (xs : List ℚ) (x : ℚ) :
    x ≤ xs.foldl max x ∧ ∀ y ∈ xs, y ≤ xs.foldl max x := by
  induction xs generalizing x with
  | nil =>
    refine ⟨le_refl x, ?_⟩
    intro y hy
    cases hy
  | cons a as ih =>
    rw [List.foldl_cons]
    obtain ⟨h1, h2⟩ := ih (max x a)
    refine ⟨le_trans (le_max_left x a) h1, ?_⟩
    intro y hy
    rcases List.mem_cons.mp hy with rfl | hy'
    · exact le_trans (le_max_right x y) h1
    · exact h2 y hy'

theorem foldl_max_mem (xs : List ℚ) (x : ℚ) :
    xs.foldl max x = x ∨ xs.foldl max x ∈ xs := by
  induction xs generalizing x with
  | nil => exact Or.inl rfl
  | cons a as ih =>
    rw [List.foldl_cons]
    rcases ih (max x a) with h | h
    · rcases max_choice x a with hm | hm
      · left
        rw [h, hm]
      · right
        rw [h, hm]
        exact List.mem_cons_self a as
    · right
      exact List.mem_cons_of_mem a h

/-- C1: for every non-empty roster, input and mode, reconciliation assigns
exactly one status to every roster member (the status column equals the
present string exactly on the present set and the absent string exactly on
the absent set), and the present and absent roll sets are disjoint with
union the roster's roll set. -/
theorem reconcile_complete_disjoint (roster : List Student) (raw : List Char)
    (mode : InputMethod) (h : roster ≠ []) :
    present_rolls roster raw mode ∪ absent_rolls roster raw mode =
      total_rolls roster ∧
    present_rolls roster raw mode ∩ absent_rolls roster raw mode = ∅ ∧
    (attendance_df roster raw mode).length = roster.length ∧
    ∀ p ∈ attendance_df roster raw mode,
      (p.2 = statusPresent ↔ p.1.roll_no ∈ present_rolls roster raw mode) ∧
      (p.2 = statusAbsent ↔ p.1.roll_no ∈ absent_rolls roster raw mode) := by
  refine ⟨present_union_absent roster raw mode, present_inter_absent roster raw mode,
    List.length_map roster _, ?_⟩
  intro p hp
  simp only [attendance_df, List.mem_map] at hp
  obtain ⟨st, hst, rfl⟩ := hp
  have hT : st.roll_no ∈ total_rolls roster := roll_mem_total hst
  by_cases hP : st.roll_no ∈ present_rolls roster raw mode
  · have hstat : get_status roster raw mode st.roll_no = statusPresent := if_pos hP
    have hA : st.roll_no ∉ absent_rolls roster raw mode := by
      intro hA
      have hm : st.roll_no ∈ (∅ : Finset Nat) := by
        rw [← present_inter_absent roster raw mode]
        exact Finset.mem_inter.mpr ⟨hP, hA⟩
      simp at hm
    constructor
    · simp [hstat, hP]
    · simp [hstat, hA, statusPresent_ne]
  · have hstat : get_status roster raw mode st.roll_no = statusAbsent := if_neg hP
    have hA : st.roll_no ∈ absent_rolls roster raw mode := by
      have hU : st.roll_no ∈ present_rolls roster raw mode ∪
          absent_rolls roster raw mode := by
        rw [present_union_absent roster raw mode]
        exact hT
      rcases Finset.mem_union.mp hU with h1 | h1
      · exact absurd h1 hP
      · exact h1
    constructor
    · simp [hstat, hP, statusAbsent_ne]
    · simp [hstat, hA]

/-- C1 witness: on a concrete non-empty roster and input, the present and
absent sets partition the roster's roll set. -/
theorem reconcile_complete_disjoint_witness :
    present_rolls sampleRoster sampleInput InputMethod.enterAbsentees ∪
        absent_rolls sampleRoster sampleInput InputMethod.enterAbsentees =
      total_rolls sampleRoster ∧
    present_rolls sampleRoster sampleInput InputMethod.enterAbsentees ∩
        absent_rolls sampleRoster sampleInput InputMethod.enterAbsentees = ∅ :=
  ⟨(reconcile_complete_disjoint sampleRoster sampleInput InputMethod.enterAbsentees
      (by decide)).1,
   (reconcile_complete_disjoint sampleRoster sampleInput InputMethod.enterAbsentees
      (by decide)).2.1⟩

/-- C2: for every roster member, the absentee-entry mode marks it absent
exactly when its roll number is in the parsed input set, the present-entry
mode marks it present exactly when its roll number is in the parsed input
set, and the two modes assign complementary statuses. -/
theorem mode_symmetry (roster : List Student) (raw : List Char) (st : Student)
    (hst : st ∈ roster) :
    (get_status roster raw InputMethod.enterAbsentees st.roll_no = statusAbsent ↔
      st.roll_no ∈ input_rolls raw) ∧
    (get_status roster raw InputMethod.enterPresent st.roll_no = statusPresent ↔
      st.roll_no ∈ input_rolls raw) ∧
    (get_status roster raw InputMethod.enterAbsentees st.roll_no = statusPresent ↔
      get_status roster raw InputMethod.enterPresent st.roll_no = statusAbsent) := by
  have hT : st.roll_no ∈ total_rolls roster := roll_mem_total hst
  by_cases hS : st.roll_no ∈ input_rolls raw
  · have h1 : st.roll_no ∉ present_rolls roster raw InputMethod.enterAbsentees := by
      simp [present_rolls, Finset.mem_sdiff, Finset.mem_inter, hT, hS]
    have h2 : st.roll_no ∈ present_rolls roster raw InputMethod.enterPresent := by
      simp [present_rolls, Finset.mem_inter, hT, hS]
    simp [get_status, h1, h2, hS, statusPresent_ne, statusAbsent_ne]
  · have h1 : st.roll_no ∈ present_rolls roster raw InputMethod.enterAbsentees := by
      simp [present_rolls, Finset.mem_sdiff, Finset.mem_inter, hT, hS]
    have h2 : st.roll_no ∉ present_rolls roster raw InputMethod.enterPresent := by
      simp [present_rolls, Finset.mem_inter, hT, hS]
    simp [get_status, h1, h2, hS, statusPresent_ne, statusAbsent_ne]

/-- C2 witness: the mode-symmetry equivalences at a concrete roster
member and input. -/
theorem mode_symmetry_witness :
    (get_status sampleRoster sampleInput InputMethod.enterAbsentees
        (Student.mk 1 "A" "G1").roll_no = statusAbsent ↔
      (Student.mk 1 "A" "G1").roll_no ∈ input_rolls sampleInput) ∧
    (get_status sampleRoster sampleInput InputMethod.enterPresent
        (Student.mk 1 "A" "G1").roll_no = statusPresent ↔
      (Student.mk 1 "A" "G1").roll_no ∈ input_rolls sampleInput) ∧
    (get_status sampleRoster sampleInput InputMethod.enterAbsentees
        (Student.mk 1 "A" "G1").roll_no = statusPresent ↔
      get_status sampleRoster sampleInput InputMethod.enterPresent
        (Student.mk 1 "A" "G1").roll_no = statusAbsent) :=
  mode_symmetry sampleRoster sampleInput (Student.mk 1 "A" "G1") (by decide)

/-- C3: a number is extracted from the raw input exactly when it is the
decimal value of some maximal run of digits of the input; extraction thus
treats every non-digit character purely as a separator and collapses
duplicates into the set. -/
theorem input_rolls_eq_maximal_runs (raw : List Char) (n : Nat) :
    n ∈ input_rolls raw ↔ ∃ run, IsMaxRun raw run ∧ int_of_digits run = n := by
  simp only [input_rolls, List.mem_toFinset, List.mem_map]
  constructor
  · rintro ⟨run, hmem, rfl⟩
    exact ⟨run, (mem_number_list raw run).mp hmem, rfl⟩
  · rintro ⟨run, hmr, rfl⟩
    exact ⟨run, (mem_number_list raw run).mpr hmr, rfl⟩

/-- C4: the unknown rolls are listed sorted ascending; they are exactly
the parsed numbers outside the roster; they appear in neither the present
nor the absent set; and with a non-empty roster and non-blank input the
attendance view still produces a download, whatever unknown numbers the
input holds. -/
theorem unknown_rolls_spec (roster : List Student) (raw : List Char)
    (mode : InputMethod) (mB mR : String → ℚ) :
    List.Sorted (· ≤ ·) (unknown_sorted roster raw) ∧
    (∀ n, n ∈ unknown_sorted roster raw ↔
      n ∈ input_rolls raw ∧ n ∉ total_rolls roster) ∧
    (∀ n ∈ unknown_sorted roster raw,
      n ∉ present_rolls roster raw mode ∧ n ∉ absent_rolls roster raw mode) ∧
    (roster ≠ [] → raw.all Char.isWhitespace = false →
      producesDownload (attendance_maker_view mB mR roster raw mode) = true) := by
  refine ⟨Finset.sort_sorted _ _, ?_, ?_, ?_⟩
  · intro n
    simp [unknown_sorted, Finset.mem_sort, out_of_range_rolls, Finset.mem_sdiff]
  · intro n hn
    have hn' : n ∉ total_rolls roster := by
      simp [unknown_sorted, Finset.mem_sort, out_of_range_rolls,
        Finset.mem_sdiff] at hn
      exact hn.2
    exact ⟨fun hmem => hn' (present_rolls_subset roster raw mode hmem),
      fun hmem => hn' (absent_rolls_subset roster raw mode hmem)⟩
  · intro hne hws
    have hdf : attendance_df roster raw mode ≠ [] := by
      simp only [attendance_df, ne_eq, List.map_eq_nil_iff]
      exact hne
    obtain ⟨out, hout⟩ :=
      Option.isSome_iff_exists.mp (create_attendance_pdf_isSome mB mR _ hdf)
    have hre : roster.isEmpty = false := by
      simp [List.isEmpty_iff, hne]
    simp [attendance_maker_view, hre, hws, hout, producesDownload]

/-- C4 witness: at a concrete roster with an out-of-roster input the
membership description of the unknown list holds, and the view still
downloads. -/
theorem unknown_rolls_spec_witness :
    (5 ∈ unknown_sorted sampleRoster sampleUnknownInput ↔
      5 ∈ input_rolls sampleUnknownInput ∧ 5 ∉ total_rolls sampleRoster) ∧
    producesDownload (attendance_maker_view mBSample mRSample sampleRoster
      sampleUnknownInput InputMethod.enterAbsentees) = true :=
  ⟨(unknown_rolls_spec sampleRoster sampleUnknownInput InputMethod.enterAbsentees
      mBSample mRSample).2.1 5,
   (unknown_rolls_spec sampleRoster sampleUnknownInput InputMethod.enterAbsentees
      mBSample mRSample).2.2.2 (by decide) (by decide)⟩

/-- C5 counterexample: with an empty roster and the input naming roll 5,
the marks mapping is empty but the unknown list is not, so the claim that
both are empty fails. -/
theorem empty_roster_counterexample :
    ¬ (attendance_df [] sampleUnknownInput InputMethod.enterAbsentees =
        ([] : List (Student × String)) ∧
       unknown_sorted [] sampleUnknownInput = []) := by
  rintro ⟨-, h⟩
  have h5 : (5 : Nat) ∈ unknown_sorted [] sampleUnknownInput := by
    rw [unknown_sorted, Finset.mem_sort]
    decide
  rw [h] at h5
  cases h5

/-- C5 amended: an empty roster yields an empty marks mapping, but the
unknown list is the whole parsed input set sorted ascending (not the empty
set); in the application an empty roster is rejected with the no-data
warning before reconciliation runs. -/
theorem empty_roster_amended (raw : List Char) (mode : InputMethod)
    (mB mR : String → ℚ) :
    attendance_df [] raw mode = [] ∧
    unknown_sorted [] raw = (input_rolls raw).sort (· ≤ ·) ∧
    attendance_maker_view mB mR [] raw mode = ViewResult.warningNoData := by
  refine ⟨rfl, ?_, ?_⟩
  · rw [unknown_sorted, out_of_range_rolls,
      show total_rolls ([] : List Student) = ∅ from rfl, Finset.sdiff_empty]
  · simp [attendance_maker_view]

/-- C6: in every generated attendance sheet, the present count plus the
absent count equals the roster size, and the absent count is the roster
size minus the present count; these are the two counts emitted in the
summary block of the attendance PDF. -/
theorem summary_counts (roster : List Student) (raw : List Char)
    (mode : InputMethod) :
    present_count (attendance_df roster raw mode) +
        absent_count (attendance_df roster raw mode) = roster.length ∧
    absent_count (attendance_df roster raw mode) =
      roster.length - present_count (attendance_df roster raw mode) := by
  have h2 : ∀ p ∈ attendance_df roster raw mode,
      p.2 = statusPresent ∨ p.2 = statusAbsent := by
    intro p hp
    simp only [attendance_df, List.mem_map] at hp
    obtain ⟨st, hst, rfl⟩ := hp
    simp only [get_status]
    split
    · exact Or.inl rfl
    · exact Or.inr rfl
  have hL := countP_statuses _ h2
  have hlen : (attendance_df roster raw mode).length = roster.length :=
    List.length_map roster _
  have hsum : present_count (attendance_df roster raw mode) +
      absent_count (attendance_df roster raw mode) = roster.length := by
    rw [present_count, absent_count, hL, hlen]
  exact ⟨hsum, by omega⟩

/-- C6 witness: the count identity at a concrete generated sheet. -/
theorem summary_counts_witness :
    present_count (attendance_df sampleRoster sampleInput InputMethod.enterAbsentees) +
        absent_count (attendance_df sampleRoster sampleInput InputMethod.enterAbsentees) =
      sampleRoster.length :=
  (summary_counts sampleRoster sampleInput InputMethod.enterAbsentees).1

/-- C7: for every non-empty data frame the attendance generator succeeds
and its name-column width equals the usable page width (page width minus
the margins) minus the sum of the other, fixed, column widths, whatever
the name content measures. -/
theorem attendance_name_width (mB mR : String → ℚ) (df : List (Student × String))
    (h : df ≠ []) :
    (create_attendance_pdf mB mR df).isSome = true ∧
    att_name_width mB mR df = some ((pdf_w - 20) - (15 + 15 + 20 + 40)) ∧
    att_name_width mB mR df = expected_att_name_width mB mR df := by
  obtain ⟨r, rs, rfl⟩ := List.exists_cons_of_ne_nil h
  refine ⟨?_, ?_, ?_⟩ <;>
    simp [create_attendance_pdf, listMax, att_name_width, expected_att_name_width,
      other_cols_sum]

/-- C7 witness: the attendance name-column width relation at a concrete
data frame and measures. -/
theorem attendance_name_width_witness :
    att_name_width mBSample mRSample sampleDf =
      some ((pdf_w - 20) - (15 + 15 + 20 + 40)) ∧
    att_name_width mBSample mRSample sampleDf =
      expected_att_name_width mBSample mRSample sampleDf :=
  ⟨(attendance_name_width mBSample mRSample sampleDf (by decide)).2.1,
   (attendance_name_width mBSample mRSample sampleDf (by decide)).2.2⟩

/-- C8: for every non-empty roster the signature generator succeeds and
its name-column width is the larger of the measured header width and the
largest measured name width, plus the fixed padding; the value produced by
the fold is indeed the maximum over the roster names. -/
theorem signature_name_width (mB mR : String → ℚ) (df : List Student)
    (h : df ≠ []) :
    (create_signature_pdf mB mR df).isSome = true ∧
    sig_name_width mB mR df = expected_sig_name_width mB mR df ∧
    ∀ m, names_max mR df = some m →
      (∀ st ∈ df, mR st.name ≤ m) ∧ ∃ st ∈ df, mR st.name = m := by
  obtain ⟨r, rs, rfl⟩ := List.exists_cons_of_ne_nil h
  refine ⟨?_, ?_, ?_⟩
  · simp [create_signature_pdf, listMax]
  · simp [sig_name_width, expected_sig_name_width, names_max,
      create_signature_pdf, listMax, max_add_add_right]
  · intro m hm
    simp only [names_max, List.map_cons, listMax] at hm
    injection hm with hm
    constructor
    · intro st hst
      rcases List.mem_cons.mp hst with rfl | hst'
      · rw [← hm]
        exact (foldl_max_le _ _).1
      · rw [← hm]
        exact (foldl_max_le _ _).2 _ (List.mem_map_of_mem _ hst')
    · rcases foldl_max_mem (rs.map (fun st => mR st.name)) (mR r.name) with h1 | h1
      · refine ⟨r, List.mem_cons_self r rs, ?_⟩
        rw [← hm, h1]
      · obtain ⟨st, hst, hval⟩ := List.mem_map.mp h1
        refine ⟨st, List.mem_cons_of_mem r hst, ?_⟩
        rw [← hm, hval]

/-- C8 witness: the signature name-column width relation at a concrete
roster and measures. -/
theorem signature_name_width_witness :
    (create_signature_pdf mBSample mRSample sampleRoster).isSome = true ∧
    sig_name_width mBSample mRSample sampleRoster =
      expected_sig_name_width mBSample mRSample sampleRoster :=
  ⟨(signature_name_width mBSample mRSample sampleRoster (by decide)).1,
   (signature_name_width mBSample mRSample sampleRoster (by decide)).2.1⟩

/-- C9: an empty roster makes both views stop at the no-data warning, so
no PDF generator runs; and on every roster neither view can reach the
generation-error outcome, because the generators only fail on an empty
row sequence, which the guard excludes. -/
theorem empty_roster_rejected (mB mR : String → ℚ) (roster : List Student)
    (raw : List Char) (mode : InputMethod) :
    (roster = [] →
      compact_list_view mB mR roster = ViewResult.warningNoData ∧
      attendance_maker_view mB mR roster raw mode = ViewResult.warningNoData) ∧
    compact_list_view mB mR roster ≠ ViewResult.errorGenerating ∧
    attendance_maker_view mB mR roster raw mode ≠ ViewResult.errorGenerating := by
  cases roster with
  | nil =>
    refine ⟨fun _ => ⟨rfl, rfl⟩, ?_, ?_⟩ <;> simp [compact_list_view, attendance_maker_view]
  | cons st roster' =>
    have hne : (st :: roster') ≠ ([] : List Student) := List.cons_ne_nil st roster'
    have hre : (st :: roster').isEmpty = false := rfl
    obtain ⟨w, hw⟩ :=
      Option.isSome_iff_exists.mp (create_signature_pdf_isSome mB mR _ hne)
    have hdf : attendance_df (st :: roster') raw mode ≠ [] := by
      simp [attendance_df]
    obtain ⟨out, hout⟩ :=
      Option.isSome_iff_exists.mp (create_attendance_pdf_isSome mB mR _ hdf)
    refine ⟨fun h0 => absurd h0 hne, ?_, ?_⟩
    · simp [compact_list_view, hre, hw]
    · by_cases hws : raw.all Char.isWhitespace = true
      · simp [attendance_maker_view, hre, hws]
      · simp [attendance_maker_view, hre, hws, hout]

/-- C9 witness: the empty roster produces the no-data warning in both
views. -/
theorem empty_roster_rejected_witness :
    compact_list_view mBSample mRSample [] = ViewResult.warningNoData ∧
    attendance_maker_view mBSample mRSample [] sampleInput
      InputMethod.enterAbsentees = ViewResult.warningNoData :=
  (empty_roster_rejected mBSample mRSample [] sampleInput
    InputMethod.enterAbsentees).1 rfl

/-- C10: when no parsed roll number belongs to the roster, reconciliation
still runs and marks the whole roster present in absentee-entry mode and
the whole roster absent in present-entry mode. -/
theorem all_unknown_uniform (roster : List Student) (raw : List Char)
    (h : roster ≠ []) (hd : input_rolls raw ∩ total_rolls roster = ∅) :
    attendance_df roster raw InputMethod.enterAbsentees =
      roster.map (fun st => (st, statusPresent)) ∧
    attendance_df roster raw InputMethod.enterPresent =
      roster.map (fun st => (st, statusAbsent)) := by
  constructor
  · rw [attendance_df]
    apply List.map_congr_left
    intro st hst
    have hT := roll_mem_total hst
    have hP : st.roll_no ∈ present_rolls roster raw InputMethod.enterAbsentees := by
      simp [present_rolls, Finset.mem_sdiff, hT, hd]
    simp [get_status, hP]
  · rw [attendance_df]
    apply List.map_congr_left
    intro st hst
    have hP : st.roll_no ∉ present_rolls roster raw InputMethod.enterPresent := by
      simp [present_rolls, hd]
    simp [get_status, hP]

/-- C10 witness: with a concrete roster and a fully-unknown input, the
absentee-entry mode marks everyone present and the present-entry mode
marks everyone absent. -/
theorem all_unknown_uniform_witness :
    attendance_df sampleRoster sampleUnknownInput InputMethod.enterAbsentees =
      [(⟨1, "A", "G1"⟩, statusPresent), (⟨2, "B", "G1"⟩, statusPresent),
        (⟨3, "C", "G2"⟩, statusPresent)] ∧
    attendance_df sampleRoster sampleUnknownInput InputMethod.enterPresent =
      [(⟨1, "A", "G1"⟩, statusAbsent), (⟨2, "B", "G1"⟩, statusAbsent),
        (⟨3, "C", "G2"⟩, statusAbsent)] :=
  ⟨((all_unknown_uniform sampleRoster sampleUnknownInput (by decide)
      (by decide)).1).trans (by decide),
   ((all_unknown_uniform sampleRoster sampleUnknownInput (by decide)
      (by decide)).2).trans (by decide)⟩

end CompactList
